import Mathlib

/-!
Verification of the AutoCleanX column-inference-and-cleaning engine
(`src/services/dataProcessor.ts`) against its specification.

The TypeScript source is shallowly embedded below.  Cell values are the
scalars of the `TableRow` type (`string | number | null | undefined`);
JavaScript numbers are modelled as rationals, with `Option ℚ` standing
for a possibly-NaN result of `Number(·)` coercion (`none` = NaN).  Host
builtins are modelled on the fragment the data pipeline exercises:
`Number(string)` on decimal literals, `Date.parse` / `new Date(string)`
on ISO `YYYY`, `YYYY-MM` and `YYYY-MM-DD` forms under a UTC clock, and
`String(·)` with exact rendering of integral numbers.
-/

namespace AutoCleanX

/-- A cell value of a `TableRow`: `string | number | null | undefined`. -/
inductive Value where
  | num (q : ℚ)
  | str (s : String)
  | null
  | undef
deriving DecidableEq, Repr

/-- A row is a JavaScript object: an insertion-ordered association list
from column names to cell values (keys unique in well-formed rows). -/
abbrev Row := List (String × Value)

/-- Reading `row[k]`: the value at the first matching key, `undefined`
when the key is absent. -/
def getVal : Row → String → Value
  | [], _ => Value.undef
  | p :: rest, k => if p.1 = k then p.2 else getVal rest k

/-- Writing `row[k] = v`: update the existing entry in place, or append
the new key at the end (JavaScript insertion order). -/
def setVal : Row → String → Value → Row
  | [], k, v => [(k, v)]
  | p :: rest, k, v => if p.1 = k then (k, v) :: rest else p :: setVal rest k v

/-- The test `v === null || v === undefined || v === ''` used throughout
`dataProcessor.ts` to detect a missing cell. -/
def isMissingV : Value → Bool
  | Value.null => true
  | Value.undef => true
  | Value.str s => s = ""
  | _ => false

/-- Whitespace trimming on a character list (both ends), modelling
JavaScript `s.trim()`. -/
def trimChars (cs : List Char) : List Char :=
  ((cs.dropWhile Char.isWhitespace).reverse.dropWhile Char.isWhitespace).reverse

/-- JavaScript `s.trim()`. -/
def jsTrim (s : String) : String := String.mk (trimChars s.data)

/-- Decimal digit test. -/
def isDigitC (c : Char) : Bool := '0' ≤ c && c ≤ '9'

/-- Value of a digit string, most significant first. -/
def digitsToNat (cs : List Char) : ℕ :=
  cs.foldl (fun a c => 10 * a + (c.toNat - '0'.toNat)) 0

/-- Parse an unsigned decimal literal `digits [. digits]`, returning its
value and the unconsumed suffix; fails when no digit is present. -/
def parseUnsigned (cs : List Char) : Option (ℚ × List Char) :=
  let intPart := cs.takeWhile isDigitC
  let rest := cs.dropWhile isDigitC
  match rest with
  | '.' :: rest2 =>
      let fracPart := rest2.takeWhile isDigitC
      let rest3 := rest2.dropWhile isDigitC
      if intPart.isEmpty && fracPart.isEmpty then none
      else some ((digitsToNat intPart : ℚ)
        + (digitsToNat fracPart : ℚ) / ((10 : ℚ) ^ fracPart.length), rest3)
  | _ =>
      if intPart.isEmpty then none
      else some ((digitsToNat intPart : ℚ), rest)

/-- Apply a trailing `e`/`E` exponent part to a parsed mantissa; the
whole parse fails on any other trailing garbage. -/
def applyExponent (q : ℚ) : List Char → Option ℚ
  | [] => some q
  | c :: rest =>
      if c = 'e' ∨ c = 'E' then
        match rest with
        | '+' :: ds =>
            if ds ≠ [] ∧ ds.all isDigitC then some (q * (10 : ℚ) ^ digitsToNat ds) else none
        | '-' :: ds =>
            if ds ≠ [] ∧ ds.all isDigitC then some (q / (10 : ℚ) ^ digitsToNat ds) else none
        | ds =>
            if ds ≠ [] ∧ ds.all isDigitC then some (q * (10 : ℚ) ^ digitsToNat ds) else none
      else none

/-- JavaScript `Number(s)` for a string `s`, on the decimal fragment:
whitespace is trimmed, the empty (or all-whitespace) string is `0`, and
`[+-]? digits [. digits] [(e|E) [+-] digits]` parses exactly; `none`
models NaN.  (Host-specific extras — hex literals, `Infinity` — do not
occur in the datasets considered here.) -/
def parseNumber (s : String) : Option ℚ :=
  match trimChars s.data with
  | [] => some 0
  | '+' :: cs => match parseUnsigned cs with
      | some (q, r) => applyExponent q r
      | none => none
  | '-' :: cs => match parseUnsigned cs with
      | some (q, r) => applyExponent (-q) r
      | none => none
  | cs => match parseUnsigned cs with
      | some (q, r) => applyExponent q r
      | none => none

/-- JavaScript `Number(v)` coercion on cell values: numbers unchanged,
strings parsed, `null` is `0`, `undefined` is NaN (`none`). -/
def jsNumber : Value → Option ℚ
  | Value.num q => some q
  | Value.str s => parseNumber s
  | Value.null => some 0
  | Value.undef => none

/-- A calendar date as JavaScript's accessors expose it (UTC clock):
`getFullYear` is `year`, `getMonth` is `month - 1` (0-indexed),
`getDate` is `day`. -/
structure CivilDate where
  year : ℕ
  month : ℕ
  day : ℕ
deriving DecidableEq, Repr

def jsGetFullYear (d : CivilDate) : ℕ := d.year
def jsGetMonth (d : CivilDate) : ℕ := d.month - 1
def jsGetDate (d : CivilDate) : ℕ := d.day

/-- Gregorian leap-year test. -/
def isLeap (y : ℕ) : Bool := (y % 4 = 0 && y % 100 ≠ 0) || y % 400 = 0

/-- Days in a month, for validating ISO date strings. -/
def daysInMonth (y m : ℕ) : ℕ :=
  if m = 2 then (if isLeap y then 29 else 28)
  else if m = 4 ∨ m = 6 ∨ m = 9 ∨ m = 11 then 30
  else 31

/-- Read exactly two digits. -/
def twoDigits (a b : Char) : Option ℕ :=
  if isDigitC a ∧ isDigitC b then some (digitsToNat [a, b]) else none

/-- Read exactly four digits. -/
def fourDigits (a b c d : Char) : Option ℕ :=
  if isDigitC a ∧ isDigitC b ∧ isDigitC c ∧ isDigitC d then
    some (digitsToNat [a, b, c, d])
  else none

/-- JavaScript `Date.parse` / `new Date(string)` on the ISO 8601
date-only forms `YYYY`, `YYYY-MM` and `YYYY-MM-DD` (month and
day-of-month validated, missing parts defaulting to January 1), under a
UTC clock; every other string is an invalid date (`none`). -/
def parseDate (s : String) : Option CivilDate :=
  match s.toList with
  | [y1, y2, y3, y4] =>
      match fourDigits y1 y2 y3 y4 with
      | some y => some ⟨y, 1, 1⟩
      | none => none
  | [y1, y2, y3, y4, '-', m1, m2] =>
      match fourDigits y1 y2 y3 y4, twoDigits m1 m2 with
      | some y, some m => if 1 ≤ m ∧ m ≤ 12 then some ⟨y, m, 1⟩ else none
      | _, _ => none
  | [y1, y2, y3, y4, '-', m1, m2, '-', d1, d2] =>
      match fourDigits y1 y2 y3 y4, twoDigits m1 m2, twoDigits d1 d2 with
      | some y, some m, some d =>
          if 1 ≤ m ∧ m ≤ 12 ∧ 1 ≤ d ∧ d ≤ daysInMonth y m then some ⟨y, m, d⟩
          else none
      | _, _, _ => none
  | _ => none

/-- `new Date(row[header])` in the feature synthesizer; in the pipeline
the cell of a DATE column is always a string (see the inference check),
so the string case is the live one and non-strings are invalid. -/
def jsNewDate : Value → Option CivilDate
  | Value.str s => parseDate s
  | _ => none

/-- The five semantic column types. -/
inductive ColumnType where
  | NUMERIC
  | CATEGORICAL
  | DATE
  | TEXT
  | UNKNOWN
deriving DecidableEq, Repr

/-- One disjunct of the numeric check (line 39 of `dataProcessor.ts`):
`typeof v === 'number' || (typeof v === 'string' && !isNaN(Number(v)) && v.trim() !== '')`. -/
def isNumericValue : Value → Bool
  | Value.num _ => true
  | Value.str s => (parseNumber s).isSome && jsTrim s ≠ ""
  | _ => false

/-- One disjunct of the date check (line 43):
`typeof v === 'string' && !isNaN(Date.parse(v))`. -/
def isDateValue : Value → Bool
  | Value.str s => (parseDate s).isSome
  | _ => false

/-- `inferColumnType` (lines 34–52): ordered heuristics with early
return — UNKNOWN on no data, then NUMERIC, DATE, CATEGORICAL
(unique ratio < 0.5 and more than 10 non-missing values), else TEXT. -/
def inferColumnType (values : List Value) : ColumnType :=
  let nonNullValues := values.filter (fun v => !isMissingV v)
  if nonNullValues.length = 0 then ColumnType.UNKNOWN
  else if nonNullValues.all isNumericValue then ColumnType.NUMERIC
  else if nonNullValues.all isDateValue then ColumnType.DATE
  else if (nonNullValues.dedup.length : ℚ) / (nonNullValues.length : ℚ) < 1 / 2
      ∧ 10 < nonNullValues.length then ColumnType.CATEGORICAL
  else ColumnType.TEXT

/-- The statistics bag of a `ColumnAnalysis`; all fields are optional
(`ColumnStats` in `types.ts`), populated per column type. -/
structure ColumnStats where
  mean : Option ℚ := none
  median : Option ℚ := none
  min : Option ℚ := none
  max : Option ℚ := none
  mode : Option String := none
  uniqueValues : Option ℕ := none
deriving DecidableEq, Repr

/-- Per-column analysis record. -/
structure ColumnAnalysis where
  name : String
  type : ColumnType
  missingCount : ℕ
  stats : ColumnStats
deriving DecidableEq, Repr

/-- One entry of the cleaning-action log. -/
structure CleaningAction where
  column : String
  action : String
  details : String
deriving DecidableEq, Repr

/-- One entry of the feature-engineering log. -/
structure FeatureEngineeringInfo where
  sourceColumn : String
  newColumns : List String
  description : String
deriving DecidableEq, Repr

/-- Insertion sort step, sorting ascending. -/
def insertSorted (q : ℚ) : List ℚ → List ℚ
  | [] => [q]
  | x :: xs => if q ≤ x then q :: x :: xs else x :: insertSorted q xs

/-- `numericValues.sort((a, b) => a - b)`: ascending sort of the
coerced numeric values. -/
def sortRats (l : List ℚ) : List ℚ := l.foldr insertSorted []

/-- `mean.toFixed(2)` rendering, used only inside the human-readable
`details` string of a numeric `CleaningAction`: the value rounded to
two decimals (half away from zero for the nonnegative values arising
here) and printed with exactly two fraction digits. -/
def toFixed2 (q : ℚ) : String :=
  let n : ℤ := ⌊q * 100 + 1 / 2⌋
  let a : ℕ := n.natAbs
  let sign := if n < 0 then "-" else ""
  let frac := a % 100
  let fracStr := if frac < 10 then "0" ++ toString frac else toString frac
  sign ++ toString (a / 100) ++ "." ++ fracStr

/-- The occurrence-count map `counts` of the mode computation
(line 114), as an insertion-ordered association list, matching a plain
`Record<string, number>` for the non-integer-like keys that arise from
categorical/date string pools. -/
def bumpCount (counts : List (String × ℕ)) (s : String) : List (String × ℕ) :=
  if counts.any (fun p => p.1 = s) then
    counts.map (fun p => if p.1 = s then (p.1, p.2 + 1) else p)
  else counts ++ [(s, 1)]

/-- `stringValues.forEach(v => { counts[v] = (counts[v] || 0) + 1 })`. -/
def buildCounts (ss : List String) : List (String × ℕ) := ss.foldl bumpCount []

/-- `counts[s]`: `none` models `undefined` for an absent key. -/
def lookupCount (counts : List (String × ℕ)) (s : String) : Option ℕ :=
  (counts.find? (fun p => p.1 = s)).map Prod.snd

/-- JavaScript `>` on possibly-`undefined` counts: any comparison
against `undefined` is false. -/
def jsGtOpt : Option ℕ → Option ℕ → Bool
  | some a, some b => b < a
  | _, _ => false

/-- `Object.keys(counts).reduce((a, b) => counts[a] > counts[b] ? a : b, '')`
(line 115): the mode of the count map. -/
def modeOf (counts : List (String × ℕ)) : String :=
  (counts.map Prod.fst).foldl
    (fun a b => if jsGtOpt (lookupCount counts a) (lookupCount counts b) then a else b) ""

/-- JavaScript truthiness test on cell values (`row[header] ||  ''`
replaces every falsy value — `0`, `''`, `null`, `undefined` — by `''`). -/
def jsFalsy : Value → Bool
  | Value.num q => q = 0
  | Value.str s => s = ""
  | Value.null => true
  | Value.undef => true

/-- `String(v)` on cell values.  Integral numbers render exactly as in
JavaScript; non-integral rationals (which never occur in the string
pipeline of the claims below) fall back to a `num/den` rendering. -/
def jsString : Value → String
  | Value.num q => if q.den = 1 then toString q.num else toString q.num ++ "/" ++ toString q.den
  | Value.str s => s
  | Value.null => "null"
  | Value.undef => "undefined"

/-- `text.split(/\s+/).filter(Boolean).length`: splitting on runs of
whitespace and dropping empty tokens leaves exactly the maximal
non-whitespace runs, counted here in one structural pass (the running
flag says whether the previous character was inside a token). -/
def wordCount (text : String) : ℕ :=
  (text.data.foldl (fun (st : Bool × ℕ) c =>
    if c.isWhitespace then (false, st.2)
    else if st.1 then st else (true, st.2 + 1)) (false, 0)).2

/-- The imputation loop of the Cleaner (lines 103–107 and 120–124):
every missing cell of column `h` is set to the single fill value; every
other row is left untouched. -/
def imputeColumn (rows : List Row) (h : String) (fill : Value) : List Row :=
  rows.map (fun row => if isMissingV (getVal row h) then setVal row h fill else row)

/-- The date feature synthesizer, per row (lines 136–145): parse the
cell, and on success append `_year`, `getMonth() + 1` as `_month`, and
`_day`; on failure leave the row untouched. -/
def engineerDateRow (h : String) (row : Row) : Row :=
  match jsNewDate (getVal row h) with
  | some d =>
      setVal (setVal (setVal row (h ++ "_year") (Value.num (jsGetFullYear d)))
        (h ++ "_month") (Value.num (jsGetMonth d + 1)))
        (h ++ "_day") (Value.num (jsGetDate d))
  | none => row

/-- `cleanedData.forEach` of the DATE feature branch. -/
def engineerDate (rows : List Row) (h : String) : List Row :=
  rows.map (engineerDateRow h)

/-- The text feature synthesizer, per row (lines 149–153):
`const text = String(row[header] || '')`, then append `_length` and
`_word_count`. -/
def engineerTextRow (h : String) (row : Row) : Row :=
  let text := if jsFalsy (getVal row h) then "" else jsString (getVal row h)
  setVal (setVal row (h ++ "_length") (Value.num (text.length : ℚ)))
    (h ++ "_word_count") (Value.num (wordCount text : ℚ))

/-- `cleanedData.forEach` of the TEXT feature branch. -/
def engineerText (rows : List Row) (h : String) : List Row :=
  rows.map (engineerTextRow h)

/-- `values.filter(v => typeof v === 'string' && v.trim() !== '')`
(line 82): the string pool for mode/uniqueness. -/
def stringPool (values : List Value) : List String :=
  values.filterMap (fun v => match v with
    | Value.str s => if jsTrim s ≠ "" then some s else none
    | _ => none)

/-- `values.map(v => Number(v)).filter(v => !isNaN(v))` (line 81): the
coerced numeric pool.  Note `Number('') = 0` and `Number(null) = 0`, so
missing cells other than `undefined` survive this filter as zeros. -/
def numericPool (values : List Value) : List ℚ :=
  (values.map jsNumber).reduceOption

/-- Result of processing one column (one iteration of the
`for (const header of headers)` loop, lines 76–155). -/
structure ColResult where
  cleanedData : List Row
  analysis : ColumnAnalysis
  actions : List CleaningAction
  features : List FeatureEngineeringInfo
deriving Repr

/-- The analysis-and-cleaning stage of one column (lines 77–131):
infer the type, compute the stats bag, and impute missing cells with
the mean (NUMERIC) or mode (CATEGORICAL/DATE), logging one
`CleaningAction` when an imputation happened. -/
def cleanStage (rows : List Row) (h : String) :
    List Row × ColumnAnalysis × List CleaningAction :=
  let values := rows.map (fun row => getVal row h)
  let type := inferColumnType values
  let numericValues := numericPool values
  let stringValues := stringPool values
  let missingCount := (values.filter (fun v => isMissingV v)).length
  if type = ColumnType.NUMERIC then
    let sum := numericValues.foldl (fun a b => a + b) 0
    let mean := if numericValues.length = 0 then 0 else sum / (numericValues.length : ℚ)
    let sorted := sortRats numericValues
    let median :=
      if numericValues.length % 2 = 0 then
        (sorted.getD (numericValues.length / 2 - 1) 0
          + sorted.getD (numericValues.length / 2) 0) / 2
      else sorted.getD (numericValues.length / 2) 0
    let stats : ColumnStats :=
      { mean := some mean, median := some median,
        min := sorted.head?, max := sorted.getLast? }
    let analysis : ColumnAnalysis := ⟨h, type, missingCount, stats⟩
    if 0 < missingCount then
      (imputeColumn rows h (Value.num mean), analysis,
        [⟨h, "Filled missing values", "Used mean (" ++ toFixed2 mean ++ ")"⟩])
    else (rows, analysis, [])
  else if type = ColumnType.CATEGORICAL ∨ type = ColumnType.DATE then
    let counts := buildCounts stringValues
    let mode := modeOf counts
    let stats : ColumnStats := { mode := some mode, uniqueValues := some stringValues.dedup.length }
    let analysis : ColumnAnalysis := ⟨h, type, missingCount, stats⟩
    if 0 < missingCount then
      (imputeColumn rows h (Value.str mode), analysis,
        [⟨h, "Filled missing values", "Used mode (\x27" ++ mode ++ "\x27)"⟩])
    else (rows, analysis, [])
  else if type = ColumnType.TEXT then
    (rows, ⟨h, type, missingCount, { uniqueValues := some stringValues.dedup.length }⟩, [])
  else
    (rows, ⟨h, type, missingCount, {}⟩, [])

/-- The feature-engineering stage of one column (lines 134–155). -/
def featureStage (rows : List Row) (h : String) (type : ColumnType) :
    List Row × List FeatureEngineeringInfo :=
  if type = ColumnType.DATE then
    (engineerDate rows h,
      [⟨h, [h ++ "_year", h ++ "_month", h ++ "_day"], "Extracted date parts"⟩])
  else if type = ColumnType.TEXT then
    (engineerText rows h,
      [⟨h, [h ++ "_length", h ++ "_word_count"], "Calculated text metrics"⟩])
  else (rows, [])

/-- One full iteration of the per-column loop: analysis, cleaning, then
feature synthesis on the cleaned rows. -/
def processColumn (rows : List Row) (h : String) : ColResult :=
  let c := cleanStage rows h
  let f := featureStage c.1 h c.2.1.type
  ⟨f.1, c.2.1, c.2.2, f.2⟩

/-- The terminal report object.  The wall-clock `processingTime` field
of the source is host time and is not modelled. -/
structure AnalysisReport where
  fileName : String
  initialRows : ℕ
  cleanedRows : ℕ
  initialCols : ℕ
  cleanedCols : ℕ
  columnAnalyses : List ColumnAnalysis
  cleaningActions : List CleaningAction
  featureEngineering : List FeatureEngineeringInfo
deriving Repr

/-- `JSON.parse(JSON.stringify(rawData))` (line 70): a deep copy in
which properties whose value is `undefined` are dropped (JSON
serialization omits them). -/
def jsonClone (rows : List Row) : List Row :=
  rows.map (fun row => row.filter (fun p => p.2 ≠ Value.undef))

/-- Accumulator state of the per-column loop. -/
structure LoopState where
  cleanedData : List Row
  columnAnalyses : List ColumnAnalysis
  cleaningActions : List CleaningAction
  featureEngineering : List FeatureEngineeringInfo
deriving Repr

/-- One step of the `for (const header of headers)` loop: process the
column and append its logs. -/
def loopStep (st : LoopState) (h : String) : LoopState :=
  let res := processColumn st.cleanedData h
  ⟨res.cleanedData, st.columnAnalyses ++ [res.analysis],
    st.cleaningActions ++ res.actions, st.featureEngineering ++ res.features⟩

/-- `processData` from the parsed rows onward (lines 63–172): reject an
empty dataset, take the headers from the first row's keys, clone, run
the per-column loop, and assemble the report. -/
def processRows (fileName : String) (rawData : List Row) :
    Except String (AnalysisReport × List Row) :=
  match rawData with
  | [] => Except.error "CSV file is empty or contains only headers."
  | r0 :: _ =>
      let headers := r0.map Prod.fst
      let final := headers.foldl loopStep ⟨jsonClone rawData, [], [], []⟩
      Except.ok
        ({ fileName := fileName,
           initialRows := rawData.length,
           cleanedRows := final.cleanedData.length,
           initialCols := headers.length,
           cleanedCols := (match final.cleanedData with | [] => 0 | r :: _ => r.length),
           columnAnalyses := final.columnAnalyses,
           cleaningActions := final.cleaningActions,
           featureEngineering := final.featureEngineering },
         final.cleanedData)

/-- What the external parser hands back: either a completion carrying
data and a (possibly empty) error list, or a transport-level failure. -/
inductive ParseOutcome where
  | complete (data : List Row) (errors : List String)
  | failure (message : String)

/-- `parseCSV` (lines 9–26): a nonempty error list rejects with the
first message wrapped in a `CSV Parsing Error:` prefix; a
transport-level failure rejects with its own message; otherwise the
parsed rows are returned. -/
def parseCSV : ParseOutcome → Except String (List Row)
  | ParseOutcome.complete rows errors =>
      match errors with
      | [] => Except.ok rows
      | e :: _ => Except.error ("CSV Parsing Error: " ++ e)
  | ParseOutcome.failure m => Except.error m

/-- The public entry point `processData` (lines 60–173): await the
parser, then process the rows. -/
def processData (fileName : String) (outcome : ParseOutcome) :
    Except String (AnalysisReport × List Row) :=
  match parseCSV outcome with
  | Except.ok rows => processRows fileName rows
  | Except.error e => Except.error e

/-! ### Basic lemmas about row access and update -/

theorem getVal_setVal_self (row : Row) (k : String) (v : Value) :
    getVal (setVal row k v) k = v := by
  induction row with
  | nil => simp [getVal, setVal]
  | cons p rest ih =>
      by_cases h : p.1 = k
      · simp [setVal, h, getVal]
      · simp [setVal, h, getVal, ih]

theorem getVal_setVal_ne (row : Row) (k : String) (v : Value) (k' : String)
    (h : k' ≠ k) : getVal (setVal row k v) k' = getVal row k' := by
  have h' : ¬(k = k') := fun e => h e.symm
  induction row with
  | nil => simp [getVal, setVal, h']
  | cons p rest ih =>
      by_cases hp : p.1 = k
      · have hq : ¬(p.1 = k') := by rw [hp]; exact h'
        simp [setVal, getVal, hp, hq, h']
      · by_cases hq : p.1 = k'
        · simp [setVal, getVal, hp, hq, h, h']
        · simp [setVal, getVal, hp, hq, ih]

theorem getVal_eq_undef_of_not_mem (row : Row) (k : String)
    (h : k ∉ row.map Prod.fst) : getVal row k = Value.undef := by
  induction row with
  | nil => rfl
  | cons p rest ih =>
      simp only [List.map_cons, List.mem_cons] at h
      push_neg at h
      have h1 : ¬(p.1 = k) := fun e => h.1 e.symm
      simp [getVal, h1, ih h.2]

/-- Dropping `undefined`-valued properties (the JSON clone) does not
change what any key reads as, for a row with unique keys. -/
theorem getVal_filter_undef (row : Row) (k : String)
    (hnd : (row.map Prod.fst).Nodup) :
    getVal (row.filter (fun p => p.2 ≠ Value.undef)) k = getVal row k := by
  induction row with
  | nil => rfl
  | cons p rest ih =>
      simp only [List.map_cons, List.nodup_cons] at hnd
      have ihr := ih hnd.2
      simp only [ne_eq, decide_not] at ihr
      by_cases hk : p.1 = k
      · by_cases hv : p.2 = Value.undef
        · have h2 : getVal rest k = Value.undef :=
            getVal_eq_undef_of_not_mem _ _ (by rw [← hk]; exact hnd.1)
          simp [List.filter_cons, hv, getVal, hk, ihr, h2]
        · simp [List.filter_cons, hv, getVal, hk]
      · by_cases hv : p.2 = Value.undef
        · simp [List.filter_cons, hv, getVal, hk, ihr]
        · simp [List.filter_cons, hv, getVal, hk, ihr]

theorem getVal_map_getD (f : Row → Row) (rows : List Row) (i : ℕ) (k : String)
    (hf : ∀ row, getVal (f row) k = getVal row k) :
    getVal ((rows.map f).getD i []) k = getVal (rows.getD i []) k := by
  induction rows generalizing i with
  | nil => simp
  | cons r rest ih =>
      cases i with
      | zero => simpa using hf r
      | succ j => simpa using ih j

/-! ### Length preservation through the pipeline stages -/

theorem imputeColumn_length (rows : List Row) (h : String) (fill : Value) :
    (imputeColumn rows h fill).length = rows.length := by
  simp [imputeColumn]

theorem cleanStage_length (rows : List Row) (h : String) :
    (cleanStage rows h).1.length = rows.length := by
  simp only [cleanStage]
  split_ifs <;> simp [imputeColumn]

theorem featureStage_length (rows : List Row) (h : String) (t : ColumnType) :
    (featureStage rows h t).1.length = rows.length := by
  simp only [featureStage]
  split_ifs <;> simp [engineerDate, engineerText]

theorem processColumn_length (rows : List Row) (h : String) :
    (processColumn rows h).cleanedData.length = rows.length := by
  simp only [processColumn]
  rw [featureStage_length, cleanStage_length]

theorem loopStep_length (st : LoopState) (h : String) :
    (loopStep st h).cleanedData.length = st.cleanedData.length := by
  unfold loopStep
  exact processColumn_length _ _

theorem foldl_loopStep_length (headers : List String) (st : LoopState) :
    (headers.foldl loopStep st).cleanedData.length = st.cleanedData.length := by
  induction headers generalizing st with
  | nil => rfl
  | cons h rest ih => rw [List.foldl_cons, ih, loopStep_length]

/-- Computation companion of `inferColumnType`: the rational
uniqueness-ratio test `dedup.length / length < 1/2` replaced by the
equivalent integer test `2 * dedup.length < length`, so that concrete
columns can be classified by kernel evaluation. -/
def inferColumnTypeB (values : List Value) : ColumnType :=
  let nonNullValues := values.filter (fun v => !isMissingV v)
  if nonNullValues.length = 0 then ColumnType.UNKNOWN
  else if nonNullValues.all isNumericValue then ColumnType.NUMERIC
  else if nonNullValues.all isDateValue then ColumnType.DATE
  else if 2 * nonNullValues.dedup.length < nonNullValues.length
      ∧ 10 < nonNullValues.length then ColumnType.CATEGORICAL
  else ColumnType.TEXT

theorem ratio_lt_half_iff (d n : ℕ) (hn : n ≠ 0) :
    ((d : ℚ) / (n : ℚ) < 1 / 2) ↔ 2 * d < n := by
  have hn' : (0 : ℚ) < (n : ℚ) := by exact_mod_cast Nat.pos_of_ne_zero hn
  rw [div_lt_div_iff₀ hn' (by norm_num)]
  constructor
  · intro hlt
    have : (2 * d : ℚ) < (n : ℚ) := by linarith
    exact_mod_cast this
  · intro hlt
    have : (2 * d : ℚ) < (n : ℚ) := by exact_mod_cast hlt
    linarith

theorem inferColumnType_eq_B (values : List Value) :
    inferColumnType values = inferColumnTypeB values := by
  simp only [inferColumnType, inferColumnTypeB]
  by_cases h0 : (values.filter (fun v => !isMissingV v)).length = 0
  · simp [h0]
  · simp only [h0, if_false]
    refine if_congr Iff.rfl rfl (if_congr Iff.rfl rfl
      (if_congr (and_congr_left' (ratio_lt_half_iff _ _ h0)) rfl rfl))

/-! ### Key-distinctness helpers for the synthesized column names -/

theorem string_length_eq_zero_iff (s : String) : s.length = 0 ↔ s = "" := by
  cases s with
  | mk data =>
      cases data with
      | nil => simp
      | cons c cs =>
          constructor
          · intro hl
            exact absurd hl (by simp [String.length])
          · intro he
            exact absurd (congrArg String.data he) (by simp)

theorem self_ne_append (h s : String) (hs : s ≠ "") : h ≠ h ++ s := by
  intro e
  have hl := congrArg String.length e
  rw [String.length_append] at hl
  exact hs ((string_length_eq_zero_iff s).1 (by omega))

theorem append_ne_append_of_length_ne (h s t : String) (hst : s.length ≠ t.length) :
    h ++ s ≠ h ++ t := by
  intro e
  have hl := congrArg String.length e
  rw [String.length_append, String.length_append] at hl
  omega

/-! ### Per-row behaviour of the feature synthesizers -/

theorem engineerTextRow_getVal_other (hd : String) (row : Row) (k : String)
    (hk1 : k ≠ hd ++ "_length") (hk2 : k ≠ hd ++ "_word_count") :
    getVal (engineerTextRow hd row) k = getVal row k := by
  simp only [engineerTextRow]
  rw [getVal_setVal_ne _ _ _ _ hk2, getVal_setVal_ne _ _ _ _ hk1]

theorem engineerDateRow_getVal_other (hd : String) (row : Row) (k : String)
    (hk1 : k ≠ hd ++ "_year") (hk2 : k ≠ hd ++ "_month") (hk3 : k ≠ hd ++ "_day") :
    getVal (engineerDateRow hd row) k = getVal row k := by
  simp only [engineerDateRow]
  cases jsNewDate (getVal row hd) with
  | none => rfl
  | some d =>
      rw [getVal_setVal_ne _ _ _ _ hk3, getVal_setVal_ne _ _ _ _ hk2,
        getVal_setVal_ne _ _ _ _ hk1]

/-! ### Shape of the clean stage -/

theorem cleanStage_type (rows : List Row) (h : String) :
    (cleanStage rows h).2.1.type
      = inferColumnType (rows.map (fun row => getVal row h)) := by
  simp only [cleanStage]
  split_ifs <;> rfl

theorem cleanStage_missing (rows : List Row) (h : String) :
    (cleanStage rows h).2.1.missingCount
      = ((rows.map (fun row => getVal row h)).filter (fun v => isMissingV v)).length := by
  simp only [cleanStage]
  split_ifs <;> rfl

theorem cleanStage_fst_text (rows : List Row) (h : String)
    (ht : inferColumnType (rows.map (fun row => getVal row h)) = ColumnType.TEXT) :
    (cleanStage rows h).1 = rows := by
  simp [cleanStage, ht]

theorem cleanStage_fst_unknown (rows : List Row) (h : String)
    (ht : inferColumnType (rows.map (fun row => getVal row h)) = ColumnType.UNKNOWN) :
    (cleanStage rows h).1 = rows := by
  simp [cleanStage, ht]

theorem processColumn_cleaned_text (rows : List Row) (h : String)
    (ht : inferColumnType (rows.map (fun row => getVal row h)) = ColumnType.TEXT) :
    (processColumn rows h).cleanedData = engineerText rows h := by
  simp only [processColumn]
  rw [cleanStage_fst_text rows h ht, cleanStage_type rows h, ht]
  simp [featureStage]

theorem processColumn_cleaned_unknown (rows : List Row) (h : String)
    (ht : inferColumnType (rows.map (fun row => getVal row h)) = ColumnType.UNKNOWN) :
    (processColumn rows h).cleanedData = rows := by
  simp only [processColumn]
  rw [cleanStage_fst_unknown rows h ht, cleanStage_type rows h, ht]
  simp [featureStage]

/-! ### Claim theorems -/

/-- C1.  The claim asserts that the mean of a NUMERIC column excludes
missing cells from numerator and denominator, and that for the column
`[1, 2, "", 4]` the mean is `(1+2+4)/3` and the third cell becomes that
value.  The code instead coerces every cell with `Number(v)` and keeps
every non-NaN result, and `Number('') = 0` (likewise `Number(null) = 0`),
so the missing cell enters the pool as `0`: the computed mean is
`(1+2+0+4)/4 = 7/4 = 1.75`, not `7/3 ≈ 2.33`, and the third cell is
filled with `7/4`.  This theorem evaluates the embedded code at the
claim's own scenario, exhibiting the divergence. -/
theorem c1_mean_counts_missing_as_zero :
    (processColumn [[("x", Value.num 1)], [("x", Value.num 2)],
        [("x", Value.str "")], [("x", Value.num 4)]] "x").analysis.type
      = ColumnType.NUMERIC
    ∧ (processColumn [[("x", Value.num 1)], [("x", Value.num 2)],
        [("x", Value.str "")], [("x", Value.num 4)]] "x").analysis.missingCount = 1
    ∧ (processColumn [[("x", Value.num 1)], [("x", Value.num 2)],
        [("x", Value.str "")], [("x", Value.num 4)]] "x").analysis.stats.mean
      = some (7 / 4)
    ∧ (7 : ℚ) / 4 ≠ (1 + 2 + 4) / 3
    ∧ getVal ((processColumn [[("x", Value.num 1)], [("x", Value.num 2)],
        [("x", Value.str "")], [("x", Value.num 4)]] "x").cleanedData.getD 2 []) "x"
      = Value.num (7 / 4) := by
  have hvals : List.map (fun row => getVal row "x")
      [[("x", Value.num 1)], [("x", Value.num 2)], [("x", Value.str "")],
        [("x", Value.num 4)]]
      = [Value.num 1, Value.num 2, Value.str "", Value.num 4] := rfl
  have hpool : numericPool [Value.num 1, Value.num 2, Value.str "", Value.num 4]
      = [1, 2, 0, 4] := rfl
  have ht : inferColumnType [Value.num 1, Value.num 2, Value.str "", Value.num 4]
      = ColumnType.NUMERIC := by decide
  have hm : (0 : ℕ) < (List.filter (fun v => isMissingV v)
      [Value.num 1, Value.num 2, Value.str "", Value.num 4]).length := by decide
  refine ⟨by decide, by decide, ?_, by norm_num, ?_⟩
  · simp only [processColumn, cleanStage, hvals, ht, hpool]
    norm_num
    split_ifs
    all_goals rfl
  · simp only [processColumn, cleanStage, featureStage, hvals, ht, hpool]
    norm_num [if_pos hm, imputeColumn, getVal, setVal, isMissingV]

/-- The type-inference algorithm exactly as §4.1 of the specification
words it: five numbered steps, evaluated in order with early return —
UNKNOWN when removing missing values leaves nothing; NUMERIC when every
remaining value is a number or a non-blank string that `Number(·)`
accepts; DATE when every remaining value is a date-parseable string;
CATEGORICAL when the distinct-to-total ratio of the non-missing values
is strictly below 0.5 and there are strictly more than 10 of them;
otherwise TEXT. -/
def inferColumnTypeSpec (values : List Value) : ColumnType :=
  let remaining := values.filter (fun v => !isMissingV v)
  if remaining = [] then ColumnType.UNKNOWN
  else if remaining.all isNumericValue then ColumnType.NUMERIC
  else if remaining.all isDateValue then ColumnType.DATE
  else if (remaining.dedup.length : ℚ) / (remaining.length : ℚ) < 1 / 2
      ∧ 10 < remaining.length then ColumnType.CATEGORICAL
  else ColumnType.TEXT

/-- C2.  Type inference evaluates its heuristics in the fixed order of
the specification with early return on first match: `inferColumnType`
coincides with the step-by-step `inferColumnTypeSpec`; a column with at
most 10 non-missing values is never CATEGORICAL; and a column all of
whose non-missing values pass the numeric check is NUMERIC (even when
they all pass the date check as well, since NUMERIC is tested first). -/
theorem c2_inference_order (values : List Value) :
    inferColumnType values = inferColumnTypeSpec values
    ∧ ((values.filter (fun v => !isMissingV v)).length ≤ 10 →
        inferColumnType values ≠ ColumnType.CATEGORICAL)
    ∧ ((values.filter (fun v => !isMissingV v)) ≠ [] →
        (values.filter (fun v => !isMissingV v)).all isNumericValue = true →
        inferColumnType values = ColumnType.NUMERIC) := by
  refine ⟨?_, ?_, ?_⟩
  · simp only [inferColumnType, inferColumnTypeSpec, List.length_eq_zero]
  · intro hle
    simp only [inferColumnType]
    split_ifs with h1 h2 h3 h4
    · simp
    · simp
    · simp
    · exact absurd h4.2 (by omega)
    · simp
  · intro hne hall
    simp only [inferColumnType]
    rw [if_neg (by simpa [List.length_eq_zero] using hne), if_pos hall]

/-- C2 witness: a column of the single string "2021" (which passes both
the numeric and the date check) is NUMERIC, and a short text column is
not CATEGORICAL. -/
theorem c2_inference_order_witness :
    inferColumnType [Value.str "2021"] = ColumnType.NUMERIC
    ∧ inferColumnType [Value.str "alpha"] ≠ ColumnType.CATEGORICAL := by
  exact ⟨(c2_inference_order [Value.str "2021"]).2.2 (by decide) (by decide),
    (c2_inference_order [Value.str "alpha"]).2.1 (by decide)⟩

/-- C3.  Processing one column appends exactly one CleaningAction iff
the column's missing count (over the values the column held when
processed) is positive and its inferred type is NUMERIC, CATEGORICAL or
DATE; and a TEXT or UNKNOWN column is never imputed — after the full
per-column step, every row still reads the same value at that column
(TEXT feature synthesis touches only the `_length`/`_word_count`
keys). -/
theorem c3_cleaning_action_iff (rows : List Row) (h : String) :
    ((processColumn rows h).actions.length
      = if 0 < (processColumn rows h).analysis.missingCount
          ∧ ((processColumn rows h).analysis.type = ColumnType.NUMERIC
            ∨ (processColumn rows h).analysis.type = ColumnType.CATEGORICAL
            ∨ (processColumn rows h).analysis.type = ColumnType.DATE)
        then 1 else 0)
    ∧ (((processColumn rows h).analysis.type = ColumnType.TEXT
        ∨ (processColumn rows h).analysis.type = ColumnType.UNKNOWN) →
        ∀ i, getVal ((processColumn rows h).cleanedData.getD i []) h
          = getVal (rows.getD i []) h) := by
  constructor
  · cases htype : inferColumnType (List.map (fun row => getVal row h) rows) <;>
      by_cases hm : 0 < (List.filter (fun v => isMissingV v)
          (List.map (fun row => getVal row h) rows)).length <;>
      simp [processColumn, cleanStage, featureStage, htype, hm]
  · intro htu i
    rcases htu with htext | hunk
    · have ht : inferColumnType (List.map (fun row => getVal row h) rows)
          = ColumnType.TEXT := by
        rw [← cleanStage_type rows h]
        exact htext
      rw [processColumn_cleaned_text rows h ht]
      exact getVal_map_getD _ _ _ _ (fun row =>
        engineerTextRow_getVal_other h row h
          (self_ne_append _ _ (by decide)) (self_ne_append _ _ (by decide)))
    · have ht : inferColumnType (List.map (fun row => getVal row h) rows)
          = ColumnType.UNKNOWN := by
        rw [← cleanStage_type rows h]
        exact hunk
      rw [processColumn_cleaned_unknown rows h ht]

/-- C3 witness: a one-row TEXT column has no cleaning action and its
cell is untouched by the column step. -/
theorem c3_cleaning_action_iff_witness :
    getVal ((processColumn [[("t", Value.str "alpha")]] "t").cleanedData.getD 0 []) "t"
      = getVal (([[("t", Value.str "alpha")]] : List Row).getD 0 []) "t" :=
  (c3_cleaning_action_iff [[("t", Value.str "alpha")]] "t").2
    (Or.inl (by rw [show (processColumn [[("t", Value.str "alpha")]] "t").analysis.type
      = inferColumnType (List.map (fun row => getVal row "t") [[("t", Value.str "alpha")]])
      from cleanStage_type _ _, inferColumnType_eq_B]; decide)) 0

/-- C4.  A nonempty parsed dataset is processed successfully, and the
cleaned dataset has exactly as many rows as were parsed:
`cleanedRows = initialRows = rawData.length`, and the returned cleaned
data has that same length — neither cleaning nor feature synthesis adds
or removes a row. -/
theorem c4_row_count_invariant (name : String) (rawData : List Row)
    (hne : rawData ≠ []) :
    ∃ r, processRows name rawData = Except.ok r
      ∧ r.1.cleanedRows = rawData.length
      ∧ r.1.initialRows = rawData.length
      ∧ r.2.length = rawData.length := by
  cases rawData with
  | nil => exact absurd rfl hne
  | cons r0 rest =>
      refine ⟨_, rfl, ?_, rfl, ?_⟩ <;>
      · show (List.foldl loopStep ⟨jsonClone (r0 :: rest), [], [], []⟩
            (List.map Prod.fst r0)).cleanedData.length = (r0 :: rest).length
        rw [show List.foldl loopStep ⟨jsonClone (r0 :: rest), [], [], []⟩
            (List.map Prod.fst r0)
          = (List.map Prod.fst r0).foldl loopStep ⟨jsonClone (r0 :: rest), [], [], []⟩
          from rfl, foldl_loopStep_length]
        simp [jsonClone]

/-- C4 witness: a concrete two-row dataset keeps both rows. -/
theorem c4_row_count_invariant_witness :
    ∃ r, processRows "data.csv" [[("a", Value.num 1)], [("a", Value.num 2)]]
        = Except.ok r
      ∧ r.1.cleanedRows = 2 ∧ r.1.initialRows = 2 ∧ r.2.length = 2 :=
  c4_row_count_invariant "data.csv" [[("a", Value.num 1)], [("a", Value.num 2)]]
    (by simp)

theorem imputeColumn_getD_not_missing (rows : List Row) (h : String) (fill : Value)
    (i : ℕ) (hnm : isMissingV (getVal (rows.getD i []) h) = false) :
    (imputeColumn rows h fill).getD i [] = rows.getD i [] := by
  induction rows generalizing i with
  | nil => rfl
  | cons r rest ih =>
      cases i with
      | zero =>
          simp only [List.getD_cons_zero] at hnm
          simp [imputeColumn, hnm]
      | succ j =>
          simp only [List.getD_cons_succ] at hnm
          simpa [imputeColumn] using ih j hnm

theorem imputeColumn_getD_missing (rows : List Row) (h : String) (fill : Value)
    (i : ℕ) (hi : i < rows.length)
    (hm : isMissingV (getVal (rows.getD i []) h) = true) :
    (imputeColumn rows h fill).getD i [] = setVal (rows.getD i []) h fill := by
  induction rows generalizing i with
  | nil => exact absurd hi (by simp)
  | cons r rest ih =>
      cases i with
      | zero =>
          simp only [List.getD_cons_zero] at hm
          simp [imputeColumn, hm]
      | succ j =>
          simp only [List.getD_cons_succ] at hm
          simpa [imputeColumn] using ih j (by simpa using hi) hm

/-- C8.  Imputation is frame-exact: a row whose cell at the column is
not missing is returned completely unchanged; a row whose cell is
missing gets exactly the single fill value at that column and keeps
every other key unchanged; and inside the clean stage the fill value is
precisely the recorded statistic — the column's mean for a NUMERIC
column, its mode for a CATEGORICAL or DATE column — the same one value
for every missing row. -/
theorem c8_imputation_frame (rows : List Row) (h : String) (fill : Value) :
    (∀ i, isMissingV (getVal (rows.getD i []) h) = false →
      (imputeColumn rows h fill).getD i [] = rows.getD i [])
    ∧ (∀ i, i < rows.length → isMissingV (getVal (rows.getD i []) h) = true →
        getVal ((imputeColumn rows h fill).getD i []) h = fill
        ∧ ∀ k, k ≠ h → getVal ((imputeColumn rows h fill).getD i []) k
            = getVal (rows.getD i []) k)
    ∧ ((cleanStage rows h).2.1.type = ColumnType.NUMERIC →
        0 < (cleanStage rows h).2.1.missingCount →
        ∃ m, (cleanStage rows h).2.1.stats.mean = some m
          ∧ (cleanStage rows h).1 = imputeColumn rows h (Value.num m))
    ∧ (((cleanStage rows h).2.1.type = ColumnType.CATEGORICAL
          ∨ (cleanStage rows h).2.1.type = ColumnType.DATE) →
        0 < (cleanStage rows h).2.1.missingCount →
        ∃ m, (cleanStage rows h).2.1.stats.mode = some m
          ∧ (cleanStage rows h).1 = imputeColumn rows h (Value.str m)) := by
  refine ⟨?_, ?_, ?_, ?_⟩
  · intro i hnm
    exact imputeColumn_getD_not_missing rows h fill i hnm
  · intro i hi hm
    rw [imputeColumn_getD_missing rows h fill i hi hm]
    exact ⟨getVal_setVal_self _ _ _, fun k hk => getVal_setVal_ne _ _ _ _ hk⟩
  · intro ht hm
    rw [cleanStage_type rows h] at ht
    rw [cleanStage_missing rows h] at hm
    simp [cleanStage, ht, hm]
  · intro ht hm
    rw [cleanStage_type rows h] at ht
    rw [cleanStage_missing rows h] at hm
    rcases ht with ht | ht <;> simp [cleanStage, ht, hm]

/-- C8 witness: in a two-row column with one missing cell, the
non-missing row is unchanged and the missing cell receives the fill. -/
theorem c8_imputation_frame_witness :
    (imputeColumn [[("x", Value.num 5)], [("x", Value.null)]] "x"
        (Value.num 5)).getD 0 []
      = ([[("x", Value.num 5)], [("x", Value.null)]] : List Row).getD 0 []
    ∧ getVal ((imputeColumn [[("x", Value.num 5)], [("x", Value.null)]] "x"
        (Value.num 5)).getD 1 []) "x" = Value.num 5 :=
  ⟨(c8_imputation_frame [[("x", Value.num 5)], [("x", Value.null)]] "x"
      (Value.num 5)).1 0 (by decide),
    ((c8_imputation_frame [[("x", Value.num 5)], [("x", Value.null)]] "x"
      (Value.num 5)).2.1 1 (by decide) (by decide)).1⟩

/-- C9.  In TEXT feature synthesis the cell is first replaced by the
empty string whenever it is JavaScript-falsy (`row[header] || ''`), so
a cell holding the number `0` is treated exactly like a missing cell:
its `_length` and `_word_count` both come out `0`; the same canonical
rewrite applies to every falsy value, and every missing value is
falsy. -/
theorem c9_text_zero_like_missing (row : Row) (h : String) :
    (getVal row h = Value.num 0 →
      getVal (engineerTextRow h row) (h ++ "_length") = Value.num 0
      ∧ getVal (engineerTextRow h row) (h ++ "_word_count") = Value.num 0)
    ∧ (∀ v, getVal row h = v → jsFalsy v = true →
        engineerTextRow h row
          = setVal (setVal row (h ++ "_length") (Value.num 0))
              (h ++ "_word_count") (Value.num 0))
    ∧ (∀ v, isMissingV v = true → jsFalsy v = true) := by
  have hw : wordCount "" = 0 := rfl
  have hl : ("" : String).length = 0 := rfl
  have key : ∀ v, getVal row h = v → jsFalsy v = true →
      engineerTextRow h row
        = setVal (setVal row (h ++ "_length") (Value.num 0))
            (h ++ "_word_count") (Value.num 0) := by
    intro v hv hf
    simp [engineerTextRow, hv, hf, hw, hl]
  refine ⟨?_, key, ?_⟩
  · intro h0
    rw [key (Value.num 0) h0 (by simp [jsFalsy])]
    constructor
    · rw [getVal_setVal_ne _ _ _ _
        (append_ne_append_of_length_ne h "_length" "_word_count" (by decide)),
        getVal_setVal_self]
    · rw [getVal_setVal_self]
  · intro v hmiss
    cases v <;> simp_all [isMissingV, jsFalsy]

/-- C9 witness: a one-key row whose cell is the number 0 gets length 0
and word count 0. -/
theorem c9_text_zero_like_missing_witness :
    getVal (engineerTextRow "t" [("t", Value.num 0)]) ("t" ++ "_length") = Value.num 0
    ∧ getVal (engineerTextRow "t" [("t", Value.num 0)]) ("t" ++ "_word_count")
      = Value.num 0 :=
  (c9_text_zero_like_missing [("t", Value.num 0)] "t").1 (by simp [getVal])

theorem parseDate_month_bounds (s : String) (d : CivilDate)
    (hp : parseDate s = some d) : 1 ≤ d.month ∧ d.month ≤ 12 := by
  unfold parseDate at hp
  repeat' split at hp
  any_goals exact Option.noConfusion hp
  all_goals obtain rfl := Option.some.inj hp
  all_goals simp_all

/-- C6.  For a DATE column, feature synthesis logs exactly one
FeatureEngineeringInfo carrying the three new names
`_year`/`_month`/`_day` (regardless of per-row parse failures), and the
row transformation is `engineerDate` applied to the already-imputed
rows; per row, a cell that parses as a date receives the year, the raw
month plus one (so January is 1), and the day of month, while a cell
that fails to parse leaves its row completely unchanged — no sentinel,
no failure; and every parsed month lies in 1..12 with
`getMonth + 1 = month`. -/
theorem c6_date_feature_synthesis (rows : List Row) (h : String) :
    ((processColumn rows h).analysis.type = ColumnType.DATE →
      (processColumn rows h).features
        = [⟨h, [h ++ "_year", h ++ "_month", h ++ "_day"], "Extracted date parts"⟩]
      ∧ (processColumn rows h).cleanedData = engineerDate (cleanStage rows h).1 h)
    ∧ (∀ row d, jsNewDate (getVal row h) = some d →
        getVal (engineerDateRow h row) (h ++ "_year")
          = Value.num ((jsGetFullYear d : ℕ) : ℚ)
        ∧ getVal (engineerDateRow h row) (h ++ "_month")
          = Value.num ((jsGetMonth d : ℚ) + 1)
        ∧ getVal (engineerDateRow h row) (h ++ "_day")
          = Value.num ((jsGetDate d : ℕ) : ℚ))
    ∧ (∀ row, jsNewDate (getVal row h) = none → engineerDateRow h row = row)
    ∧ (∀ s d, parseDate s = some d →
        1 ≤ d.month ∧ d.month ≤ 12 ∧ jsGetMonth d + 1 = d.month) := by
  refine ⟨?_, ?_, ?_, ?_⟩
  · intro hdate
    have ht : inferColumnType (rows.map (fun row => getVal row h))
        = ColumnType.DATE := by
      rw [← cleanStage_type rows h]
      exact hdate
    constructor <;>
      (simp only [processColumn]; rw [cleanStage_type rows h, ht]; simp [featureStage])
  · intro row d hd
    simp only [engineerDateRow, hd]
    refine ⟨?_, ?_, ?_⟩
    · rw [getVal_setVal_ne _ _ _ _
          (append_ne_append_of_length_ne h "_year" "_day" (by decide)),
        getVal_setVal_ne _ _ _ _
          (append_ne_append_of_length_ne h "_year" "_month" (by decide)),
        getVal_setVal_self]
    · rw [getVal_setVal_ne _ _ _ _
          (append_ne_append_of_length_ne h "_month" "_day" (by decide)),
        getVal_setVal_self]
    · rw [getVal_setVal_self]
  · intro row hnone
    simp [engineerDateRow, hnone]
  · intro s d hp
    have hb := parseDate_month_bounds s d hp
    exact ⟨hb.1, hb.2, by simp only [jsGetMonth]; omega⟩

/-- C6 witness: "2021-05-01" yields month 5 (1-indexed), and the
unparseable string of spec Scenario D leaves its row untouched. -/
theorem c6_date_feature_synthesis_witness :
    getVal (engineerDateRow "d" [("d", Value.str "2021-05-01")]) ("d" ++ "_month")
      = Value.num ((jsGetMonth ⟨2021, 5, 1⟩ : ℚ) + 1)
    ∧ engineerDateRow "d" [("d", Value.str "not-a-date-but-row-level")]
      = [("d", Value.str "not-a-date-but-row-level")] :=
  ⟨((c6_date_feature_synthesis [] "d").2.1 [("d", Value.str "2021-05-01")]
      ⟨2021, 5, 1⟩ (by decide)).2.1,
    (c6_date_feature_synthesis [] "d").2.2.1 [("d", Value.str "not-a-date-but-row-level")]
      (by decide)⟩

/-- C7 counterexample.  The claim asserts parser-level failures abort
the run "with the parser's own message passed through intact"; but
`parseCSV` wraps the first parser error in a `CSV Parsing Error:`
prefix (line 17 of `dataProcessor.ts`), so for a parser error with
message "Quoted field unterminated" the surfaced message is the
prefixed string, which differs from the parser's own message. -/
theorem c7_message_not_intact :
    processData "f.csv" (ParseOutcome.complete [] ["Quoted field unterminated"])
      = Except.error ("CSV Parsing Error: " ++ "Quoted field unterminated")
    ∧ ("CSV Parsing Error: " ++ "Quoted field unterminated" : String)
      ≠ "Quoted field unterminated" := by
  exact ⟨rfl, by decide⟩

/-- C7 (amended).  A parse that succeeds with zero data rows fails
immediately with the dedicated empty-dataset error — an `Except.error`,
so no ColumnAnalysis, CleaningAction or FeatureEngineeringInfo is ever
produced — and that message is distinct from every parser-level
failure message of the errors-list path; an errors-list parser failure
aborts the run with the parser's first message embedded behind the
`CSV Parsing Error:` prefix (not verbatim), while a transport-level
parser failure is passed through with its message unchanged. -/
theorem c7_empty_dataset_error (name m e : String) (data : List Row)
    (es : List String) :
    processData name (ParseOutcome.complete [] [])
      = Except.error "CSV file is empty or contains only headers."
    ∧ ("CSV file is empty or contains only headers." : String)
      ≠ "CSV Parsing Error: " ++ m
    ∧ processData name (ParseOutcome.complete data (e :: es))
      = Except.error ("CSV Parsing Error: " ++ e)
    ∧ processData name (ParseOutcome.failure m) = Except.error m := by
  refine ⟨rfl, ?_, rfl, rfl⟩
  intro he
  have h1 : ("CSV file is empty or contains only headers." : String).data[4]?
      = some 'f' := rfl
  rw [congrArg String.data he] at h1
  rw [show ("CSV Parsing Error: " ++ m : String).data
      = ("CSV Parsing Error: " : String).data ++ m.data from String.data_append _ _,
    List.getElem?_append_left (by decide)] at h1
  exact absurd h1 (by decide)

/-- C7 witness: the empty-dataset error and the pass-through of a
transport-level failure, at concrete inputs. -/
theorem c7_empty_dataset_error_witness :
    processData "f.csv" (ParseOutcome.complete [] [])
      = Except.error "CSV file is empty or contains only headers."
    ∧ processData "f.csv" (ParseOutcome.failure "device lost")
      = Except.error "device lost" :=
  ⟨(c7_empty_dataset_error "f.csv" "x" "y" [] []).1,
    (c7_empty_dataset_error "f.csv" "device lost" "y" [] []).2.2.2⟩

/-! ### The mode computation: count map and running maximum -/

/-- The pair-level form of the mode fold: starting from the dummy
`("", 0)` accumulator, keep the accumulator only when its count is
strictly greater — so on ties the later entry wins. -/
def lastRunningMax (counts : List (String × ℕ)) : String :=
  (counts.foldl (fun (acc : String × ℕ) p => if p.2 < acc.2 then acc else p) ("", 0)).1

theorem lookupCount_cons (p : String × ℕ) (rest : List (String × ℕ)) (k : String) :
    lookupCount (p :: rest) k
      = if p.1 = k then some p.2 else lookupCount rest k := by
  by_cases hp : p.1 = k
  · simp [lookupCount, List.find?_cons_of_pos, hp]
  · simp [lookupCount, List.find?_cons_of_neg, hp]

theorem lookupCount_map_inc (counts : List (String × ℕ)) (s k : String) :
    lookupCount (counts.map (fun p => if p.1 = s then (p.1, p.2 + 1) else p)) k
      = if k = s then (lookupCount counts k).map (fun n => n + 1)
        else lookupCount counts k := by
  induction counts with
  | nil => by_cases hk : k = s <;> simp [lookupCount, hk]
  | cons p rest ih =>
      by_cases hps : p.1 = s <;> by_cases hpk : p.1 = k
      · have hks : k = s := by rw [← hpk]; exact hps
        simp [lookupCount_cons, hps, hpk, hks]
      · have hks : ¬ k = s := fun e => hpk (by rw [hps, ← e])
        have hsk : ¬ s = k := fun e => hks e.symm
        simp [lookupCount_cons, hps, hpk, hks, hsk, ih]
      · have hks : ¬ k = s := fun e => hps (by rw [hpk, e])
        simp [lookupCount_cons, hps, hpk, hks]
      · simp [lookupCount_cons, hps, hpk, ih]

theorem lookupCount_append_single (counts : List (String × ℕ)) (s k : String) :
    lookupCount (counts ++ [(s, 1)]) k
      = match lookupCount counts k with
        | some c => some c
        | none => if s = k then some 1 else none := by
  induction counts with
  | nil => by_cases hk : s = k <;> simp [lookupCount_cons, lookupCount, hk]
  | cons p rest ih =>
      by_cases hpk : p.1 = k <;>
        simp [List.cons_append, lookupCount_cons, hpk, ih]

theorem any_key_eq_isSome (counts : List (String × ℕ)) (s : String) :
    counts.any (fun p => p.1 = s) = (lookupCount counts s).isSome := by
  induction counts with
  | nil => rfl
  | cons p rest ih =>
      by_cases hp : p.1 = s <;> simp [lookupCount_cons, hp, ih]

theorem buildCounts_append (ss : List String) (s : String) :
    buildCounts (ss ++ [s]) = bumpCount (buildCounts ss) s := by
  simp [buildCounts, List.foldl_append]

theorem lookupCount_buildCounts (ss : List String) :
    ∀ k : String, lookupCount (buildCounts ss) k
      = if k ∈ ss then some (ss.count k) else none := by
  induction ss using List.reverseRecOn with
  | nil => intro k; simp [buildCounts, lookupCount]
  | append_singleton ss s ih =>
      intro k
      rw [buildCounts_append]
      unfold bumpCount
      by_cases hp : (buildCounts ss).any (fun p => p.1 = s) = true
      · have hsmem : s ∈ ss := by
          rw [any_key_eq_isSome, ih s] at hp
          by_cases hs : s ∈ ss
          · exact hs
          · simp [hs] at hp
        rw [if_pos hp, lookupCount_map_inc, ih k]
        by_cases hks : k = s
        · subst hks
          simp [hsmem, List.count_append, List.count_cons]
        · have hsk : ¬ s = k := fun e => hks e.symm
          by_cases hkmem : k ∈ ss <;>
            simp [hks, hsk, hkmem, List.count_append, List.count_cons]
      · have hsmem : s ∉ ss := by
          rw [any_key_eq_isSome, ih s] at hp
          by_cases hs : s ∈ ss
          · simp [hs] at hp
          · exact hs
        rw [if_neg hp, lookupCount_append_single, ih k]
        by_cases hks : k = s
        · subst hks
          simp [hsmem, List.count_append, List.count_cons,
            List.count_eq_zero.2 hsmem]
        · have hsk : ¬ s = k := fun e => hks e.symm
          by_cases hkmem : k ∈ ss <;>
            simp [hks, hsk, hkmem, List.count_append, List.count_cons]

theorem buildCounts_keys_nodup (ss : List String) :
    ((buildCounts ss).map Prod.fst).Nodup := by
  induction ss using List.reverseRecOn with
  | nil => simp [buildCounts]
  | append_singleton ss s ih =>
      rw [buildCounts_append]
      unfold bumpCount
      by_cases hp : (buildCounts ss).any (fun p => p.1 = s) = true
      · rw [if_pos hp, List.map_map]
        have : (buildCounts ss).map (Prod.fst ∘ fun p => if p.1 = s then (p.1, p.2 + 1) else p)
            = (buildCounts ss).map Prod.fst := by
          apply List.map_congr_left
          intro p _
          by_cases hps : p.1 = s <;> simp [hps]
        rw [this]
        exact ih
      · rw [if_neg hp, List.map_append]
        have hs : s ∉ (buildCounts ss).map Prod.fst := by
          intro hmem
          rcases List.mem_map.1 hmem with ⟨q, hq, hq1⟩
          rw [List.any_eq_true] at hp
          exact hp ⟨q, hq, by simp [hq1]⟩
        simp [List.nodup_append, ih, hs]

theorem lookup_self_of_nodup (counts : List (String × ℕ))
    (hnd : (counts.map Prod.fst).Nodup) (p : String × ℕ) (hp : p ∈ counts) :
    lookupCount counts p.1 = some p.2 := by
  induction counts with
  | nil => cases hp
  | cons q rest ih =>
      simp only [List.map_cons, List.nodup_cons] at hnd
      rcases List.mem_cons.1 hp with rfl | hmem
      · simp [lookupCount_cons]
      · have hq : ¬ q.1 = p.1 := fun e =>
          hnd.1 (e ▸ List.mem_map.2 ⟨p, hmem, rfl⟩)
        rw [lookupCount_cons, if_neg hq]
        exact ih hnd.2 hmem

theorem modeOf_eq_lastRunningMax (counts : List (String × ℕ))
    (hnd : (counts.map Prod.fst).Nodup)
    (hne : lookupCount counts "" = none) :
    modeOf counts = lastRunningMax counts := by
  have aux : ∀ (l : List (String × ℕ)) (a : String × ℕ),
      (∀ p ∈ l, lookupCount counts p.1 = some p.2) →
      (lookupCount counts a.1 = some a.2
        ∨ (a.2 = 0 ∧ lookupCount counts a.1 = none)) →
      (l.map Prod.fst).foldl
          (fun x b => if jsGtOpt (lookupCount counts x) (lookupCount counts b)
            then x else b) a.1
        = (l.foldl (fun acc p => if p.2 < acc.2 then acc else p) a).1 := by
    intro l
    induction l with
    | nil => intro a _ _; rfl
    | cons p t ih =>
        intro a hl ha
        simp only [List.map_cons, List.foldl_cons]
        have hp := hl p (List.mem_cons_self _ _)
        have hrest : ∀ q ∈ t, lookupCount counts q.1 = some q.2 :=
          fun q hq => hl q (List.mem_cons_of_mem _ hq)
        rcases ha with ha | ⟨ha0, han⟩
        · rw [ha, hp]
          by_cases hc : p.2 < a.2
          · rw [if_pos (by simp [jsGtOpt, hc]), if_pos hc]
            exact ih a hrest (Or.inl ha)
          · rw [if_neg (by simp [jsGtOpt, hc]), if_neg hc]
            exact ih p hrest (Or.inl hp)
        · rw [han, hp]
          rw [if_neg (by simp [jsGtOpt])]
          rw [if_neg (by omega)]
          exact ih p hrest (Or.inl hp)
  exact aux counts ("", 0)
    (fun p hp => lookup_self_of_nodup counts hnd p hp) (Or.inr ⟨rfl, hne⟩)

theorem foldl_runningMax_spec (l : List (String × ℕ)) (a : String × ℕ) :
    ((l.foldl (fun acc p => if p.2 < acc.2 then acc else p) a) = a
      ∨ (l.foldl (fun acc p => if p.2 < acc.2 then acc else p) a) ∈ l)
    ∧ a.2 ≤ (l.foldl (fun acc p => if p.2 < acc.2 then acc else p) a).2
    ∧ ∀ p ∈ l, p.2 ≤ (l.foldl (fun acc p => if p.2 < acc.2 then acc else p) a).2 := by
  induction l generalizing a with
  | nil => exact ⟨Or.inl rfl, le_refl _, by simp⟩
  | cons p t ih =>
      obtain ⟨hmem, hle, hall⟩ := ih (if p.2 < a.2 then a else p)
      rw [List.foldl_cons]
      refine ⟨?_, ?_, ?_⟩
      · rcases hmem with he | hm
        · rw [he]
          split_ifs with hc
          · exact Or.inl rfl
          · exact Or.inr (List.mem_cons_self _ _)
        · exact Or.inr (List.mem_cons_of_mem _ hm)
      · refine le_trans ?_ hle
        split_ifs with hc
        · exact le_refl _
        · omega
      · intro q hq
        rcases List.mem_cons.1 hq with rfl | hqt
        · refine le_trans ?_ hle
          split_ifs with hc
          · omega
          · exact le_refl _
        · exact hall q hqt

theorem empty_not_mem_stringPool (values : List Value) :
    "" ∉ stringPool values := by
  intro hmem
  rcases List.mem_filterMap.1 hmem with ⟨v, _, hf⟩
  cases v with
  | str s =>
      have hf2 : (if jsTrim s ≠ "" then some s else none) = some "" := hf
      by_cases hc : jsTrim s ≠ ""
      · rw [if_pos hc] at hf2
        have hs := Option.some.inj hf2
        subst hs
        exact hc rfl
      · rw [if_neg hc] at hf2
        exact Option.noConfusion hf2
  | num q => exact Option.noConfusion hf
  | null => exact Option.noConfusion hf
  | undef => exact Option.noConfusion hf

/-- The mode is count-maximal over the string pool, is drawn from the
pool when the pool is nonempty, and equals the pair-level running
maximum (so tie-breaking is determined by that fold). -/
theorem modeOf_count_max (ss : List String) (hne : "" ∉ ss) :
    (∀ s ∈ ss, ss.count s ≤ ss.count (modeOf (buildCounts ss)))
    ∧ (ss ≠ [] → modeOf (buildCounts ss) ∈ ss)
    ∧ modeOf (buildCounts ss) = lastRunningMax (buildCounts ss) := by
  have hnd := buildCounts_keys_nodup ss
  have hlz : lookupCount (buildCounts ss) "" = none := by
    rw [lookupCount_buildCounts]
    simp [hne]
  have heq := modeOf_eq_lastRunningMax _ hnd hlz
  obtain ⟨hmem, hle0, hall⟩ := foldl_runningMax_spec (buildCounts ss) ("", 0)
  set F := List.foldl (fun acc p => if p.2 < acc.2 then acc else p) ("", 0)
    (buildCounts ss) with hF
  have hlrm : lastRunningMax (buildCounts ss) = F.1 := rfl
  have entry_of_mem : ∀ s ∈ ss,
      ∃ q : String × ℕ, q ∈ buildCounts ss ∧ q.1 = s ∧ q.2 = ss.count s := by
    intro s hs
    have hlk : lookupCount (buildCounts ss) s = some (ss.count s) := by
      rw [lookupCount_buildCounts]
      simp [hs]
    cases hf : (buildCounts ss).find? (fun p => p.1 = s) with
    | none =>
        rw [lookupCount, hf] at hlk
        exact Option.noConfusion hlk
    | some q =>
        have hq1 : q.1 = s := by
          have := List.find?_some hf
          simpa using this
        have hq2 : q.2 = ss.count s := by
          rw [lookupCount, hf] at hlk
          exact Option.some.inj hlk
        exact ⟨q, List.mem_of_find?_eq_some hf, hq1, hq2⟩
  have fold_mem : ∀ s ∈ ss, F ∈ buildCounts ss := by
    intro s hs
    rcases hmem with hinit | hm
    · obtain ⟨q, hqmem, hq1, hq2⟩ := entry_of_mem s hs
      have hqle := hall q hqmem
      rw [hinit] at hqle
      have hz : ((("", 0) : String × ℕ)).2 = 0 := rfl
      rw [hz] at hqle
      have hpos : 0 < ss.count s := List.count_pos_iff.2 hs
      exact absurd hqle (by omega)
    · exact hm
  refine ⟨?_, ?_, heq⟩
  · intro s hs
    obtain ⟨q, hqmem, hq1, hq2⟩ := entry_of_mem s hs
    have hqle := hall q hqmem
    have hm := fold_mem s hs
    have hml := lookup_self_of_nodup _ hnd _ hm
    rw [lookupCount_buildCounts] at hml
    by_cases hfm : F.1 ∈ ss
    · rw [if_pos hfm] at hml
      have hcnt := Option.some.inj hml
      rw [heq, hlrm]
      omega
    · rw [if_neg hfm] at hml
      exact Option.noConfusion hml
  · intro hnonempty
    obtain ⟨s, hs⟩ := List.exists_mem_of_ne_nil ss hnonempty
    have hm := fold_mem s hs
    have hml := lookup_self_of_nodup _ hnd _ hm
    rw [lookupCount_buildCounts] at hml
    by_cases hfm : F.1 ∈ ss
    · rw [heq, hlrm]
      exact hfm
    · rw [if_neg hfm] at hml
      exact Option.noConfusion hml

theorem cleanStage_catdate_mode (rows : List Row) (h : String)
    (ht : inferColumnType (rows.map (fun row => getVal row h)) = ColumnType.CATEGORICAL
        ∨ inferColumnType (rows.map (fun row => getVal row h)) = ColumnType.DATE) :
    (cleanStage rows h).2.1.stats.mode
      = some (modeOf (buildCounts (stringPool (rows.map (fun row => getVal row h)))))
    ∧ (0 < ((rows.map (fun row => getVal row h)).filter (fun v => isMissingV v)).length →
        (cleanStage rows h).1 = imputeColumn rows h
          (Value.str (modeOf (buildCounts (stringPool
            (rows.map (fun row => getVal row h))))))) := by
  have hnn : ¬ inferColumnType (rows.map (fun row => getVal row h))
      = ColumnType.NUMERIC := by
    rcases ht with ht | ht <;> simp [ht]
  constructor
  · simp only [cleanStage]
    rw [if_neg hnn, if_pos ht]
    split_ifs <;> rfl
  · intro hm
    simp only [cleanStage]
    rw [if_neg hnn, if_pos ht, if_pos hm]

/-- The twelve-row column that alternates the strings "a" and "b", so
that their counts tie at six each with "a" inserted first. -/
def tieColumn : List Row :=
  [[("c", Value.str "a")], [("c", Value.str "b")], [("c", Value.str "a")],
    [("c", Value.str "b")], [("c", Value.str "a")], [("c", Value.str "b")],
    [("c", Value.str "a")], [("c", Value.str "b")], [("c", Value.str "a")],
    [("c", Value.str "b")], [("c", Value.str "a")], [("c", Value.str "b")]]

/-- C5 counterexample.  The claim says that when several values tie for
the maximal count, the mode is the first key encountered as the running
maximum in the count map's first-insertion order.  On the alternating
a/b column the column is CATEGORICAL, the count map is
`[("a", 6), ("b", 6)]` — a tie with "a" first — yet the recorded mode
is "b": the reduce keeps the accumulator only on a strictly greater
count, so a tie hands the running maximum to the later key. -/
theorem c5_first_key_tie_refuted :
    (processColumn tieColumn "c").analysis.type = ColumnType.CATEGORICAL
    ∧ buildCounts (stringPool (tieColumn.map (fun row => getVal row "c")))
      = [("a", 6), ("b", 6)]
    ∧ (processColumn tieColumn "c").analysis.stats.mode = some "b"
    ∧ ("b" : String) ≠ "a" := by
  have htype : inferColumnType (tieColumn.map (fun row => getVal row "c"))
      = ColumnType.CATEGORICAL := by
    rw [inferColumnType_eq_B]
    decide
  refine ⟨?_, by decide, ?_, by decide⟩
  · show (cleanStage tieColumn "c").2.1.type = ColumnType.CATEGORICAL
    rw [cleanStage_type]
    exact htype
  · have hmode := (cleanStage_catdate_mode tieColumn "c" (Or.inl htype)).1
    show (cleanStage tieColumn "c").2.1.stats.mode = some "b"
    rw [hmode]
    decide

/-- C5 (amended).  For every CATEGORICAL or DATE column, the mode
recorded in stats — and used as the single imputation fill when the
column has missing cells — is the reduce over the first-insertion-
ordered count map of the trim-nonempty string values; it attains the
maximal occurrence count and lies in the string pool when the pool is
nonempty; and the tie-break is the pair-level running maximum with a
strict-greater comparison, which settles on the LAST maximal key in
the count map's iteration order (not the first). -/
theorem c5_mode_is_last_running_max (rows : List Row) (h : String) :
    ((inferColumnType (rows.map (fun row => getVal row h)) = ColumnType.CATEGORICAL
        ∨ inferColumnType (rows.map (fun row => getVal row h)) = ColumnType.DATE) →
      (processColumn rows h).analysis.stats.mode
        = some (modeOf (buildCounts (stringPool (rows.map (fun row => getVal row h)))))
      ∧ (0 < ((rows.map (fun row => getVal row h)).filter (fun v => isMissingV v)).length →
          (cleanStage rows h).1 = imputeColumn rows h
            (Value.str (modeOf (buildCounts (stringPool
              (rows.map (fun row => getVal row h))))))))
    ∧ (∀ ss : List String, "" ∉ ss →
        (∀ s ∈ ss, ss.count s ≤ ss.count (modeOf (buildCounts ss)))
        ∧ (ss ≠ [] → modeOf (buildCounts ss) ∈ ss)
        ∧ modeOf (buildCounts ss) = lastRunningMax (buildCounts ss))
    ∧ (∀ values : List Value, "" ∉ stringPool values) := by
  refine ⟨?_, fun ss hne => modeOf_count_max ss hne,
    fun values => empty_not_mem_stringPool values⟩
  intro ht
  exact cleanStage_catdate_mode rows h ht

/-- C5 witness: on the spec's Scenario B pool the mode is
count-maximal (checked against "blue") and belongs to the pool. -/
theorem c5_mode_is_last_running_max_witness :
    (["red", "blue", "red", "red", "blue", "red", "blue", "red", "blue",
        "red", "blue", "red"].count "blue"
      ≤ ["red", "blue", "red", "red", "blue", "red", "blue", "red", "blue",
        "red", "blue", "red"].count
        (modeOf (buildCounts ["red", "blue", "red", "red", "blue", "red",
          "blue", "red", "blue", "red", "blue", "red"])))
    ∧ modeOf (buildCounts ["red", "blue", "red", "red", "blue", "red",
        "blue", "red", "blue", "red", "blue", "red"])
      ∈ ["red", "blue", "red", "red", "blue", "red", "blue", "red", "blue",
        "red", "blue", "red"] :=
  ⟨((c5_mode_is_last_running_max [] "x").2.1
      ["red", "blue", "red", "red", "blue", "red", "blue", "red", "blue",
        "red", "blue", "red"] (by decide)).1 "blue" (by decide),
    ((c5_mode_is_last_running_max [] "x").2.1
      ["red", "blue", "red", "red", "blue", "red", "blue", "red", "blue",
        "red", "blue", "red"] (by decide)).2.1 (by decide)⟩

/-! ### Write-locality of the per-column loop -/

theorem cleanStage_fst_cases (rows : List Row) (h : String) :
    (cleanStage rows h).1 = rows
      ∨ ∃ fill, (cleanStage rows h).1 = imputeColumn rows h fill := by
  simp only [cleanStage]
  split_ifs <;> first | exact Or.inl rfl | exact Or.inr ⟨_, rfl⟩

theorem cleanStage_getVal_other (rows : List Row) (h k : String)
    (hk1 : k ≠ h) (i : ℕ) :
    getVal ((cleanStage rows h).1.getD i []) k = getVal (rows.getD i []) k := by
  rcases cleanStage_fst_cases rows h with hc | ⟨fill, hc⟩ <;> rw [hc]
  apply getVal_map_getD
  intro row
  split_ifs with hm
  · exact getVal_setVal_ne _ _ _ _ hk1
  · rfl

theorem featureStage_getVal_other (rows2 : List Row) (h : String) (t : ColumnType)
    (k : String)
    (hk2 : k ≠ h ++ "_year") (hk3 : k ≠ h ++ "_month") (hk4 : k ≠ h ++ "_day")
    (hk5 : k ≠ h ++ "_length") (hk6 : k ≠ h ++ "_word_count") (i : ℕ) :
    getVal ((featureStage rows2 h t).1.getD i []) k = getVal (rows2.getD i []) k := by
  simp only [featureStage]
  split_ifs
  · exact getVal_map_getD _ _ _ _
      (fun row => engineerDateRow_getVal_other h row k hk2 hk3 hk4)
  · exact getVal_map_getD _ _ _ _
      (fun row => engineerTextRow_getVal_other h row k hk5 hk6)
  · rfl

theorem processColumn_getVal_other (rows : List Row) (h k : String)
    (hk1 : k ≠ h)
    (hk2 : k ≠ h ++ "_year") (hk3 : k ≠ h ++ "_month") (hk4 : k ≠ h ++ "_day")
    (hk5 : k ≠ h ++ "_length") (hk6 : k ≠ h ++ "_word_count") (i : ℕ) :
    getVal ((processColumn rows h).cleanedData.getD i []) k
      = getVal (rows.getD i []) k := by
  simp only [processColumn]
  rw [featureStage_getVal_other _ _ _ _ hk2 hk3 hk4 hk5 hk6 i]
  exact cleanStage_getVal_other rows h k hk1 i

theorem foldl_loopStep_getVal_other (headers : List String) (st : LoopState)
    (k : String)
    (hk : ∀ hh ∈ headers, k ≠ hh ∧ k ≠ hh ++ "_year" ∧ k ≠ hh ++ "_month"
      ∧ k ≠ hh ++ "_day" ∧ k ≠ hh ++ "_length" ∧ k ≠ hh ++ "_word_count")
    (i : ℕ) :
    getVal ((headers.foldl loopStep st).cleanedData.getD i []) k
      = getVal (st.cleanedData.getD i []) k := by
  induction headers generalizing st with
  | nil => rfl
  | cons hh t ih =>
      rw [List.foldl_cons, ih _ (fun x hx => hk x (List.mem_cons_of_mem _ hx))]
      obtain ⟨h1, h2, h3, h4, h5, h6⟩ := hk hh (List.mem_cons_self _ _)
      show getVal ((processColumn st.cleanedData hh).cleanedData.getD i []) k
        = getVal (st.cleanedData.getD i []) k
      exact processColumn_getVal_other _ _ _ h1 h2 h3 h4 h5 h6 i

theorem jsonClone_getVal_getD (rows : List Row)
    (hnd : ∀ row ∈ rows, (row.map Prod.fst).Nodup) (i : ℕ) (k : String) :
    getVal ((jsonClone rows).getD i []) k = getVal (rows.getD i []) k := by
  induction rows generalizing i with
  | nil => rfl
  | cons r rest ih =>
      cases i with
      | zero =>
          show getVal (r.filter (fun p => p.2 ≠ Value.undef)) k = getVal r k
          exact getVal_filter_undef r k (hnd r (List.mem_cons_self _ _))
      | succ j =>
          show getVal ((jsonClone rest).getD j []) k = getVal (rest.getD j []) k
          exact ih (fun row hr => hnd row (List.mem_cons_of_mem _ hr)) j

theorem processColumn_analysis_name (rows : List Row) (h : String) :
    (processColumn rows h).analysis.name = h := by
  show (cleanStage rows h).2.1.name = h
  simp only [cleanStage]
  split_ifs <;> rfl

theorem foldl_analyses_names (headers : List String) (st : LoopState) :
    ((headers.foldl loopStep st).columnAnalyses).map (fun a => a.name)
      = (st.columnAnalyses.map (fun a => a.name)) ++ headers := by
  induction headers generalizing st with
  | nil => simp
  | cons hh t ih =>
      rw [List.foldl_cons, ih]
      simp [loopStep, processColumn_analysis_name]

theorem processColumn_feature_sources (rows : List Row) (h : String) :
    ∀ fe ∈ (processColumn rows h).features, fe.sourceColumn = h := by
  intro fe hfe
  have hfs : (processColumn rows h).features
      = (featureStage (cleanStage rows h).1 h (cleanStage rows h).2.1.type).2 := rfl
  rw [hfs] at hfe
  revert hfe
  simp only [featureStage]
  split_ifs <;> intro hfe <;> simp_all

theorem foldl_fe_sources (headers : List String) (st : LoopState) :
    ∀ fe ∈ (headers.foldl loopStep st).featureEngineering,
      fe ∈ st.featureEngineering ∨ fe.sourceColumn ∈ headers := by
  induction headers generalizing st with
  | nil => exact fun fe hfe => Or.inl hfe
  | cons hh t ih =>
      intro fe hfe
      rcases ih (loopStep st hh) fe hfe with hmem | hsrc
      · have hstep : (loopStep st hh).featureEngineering
            = st.featureEngineering ++ (processColumn st.cleanedData hh).features := rfl
        rw [hstep] at hmem
        rcases List.mem_append.1 hmem with hl | hr
        · exact Or.inl hl
        · refine Or.inr ?_
          rw [processColumn_feature_sources _ _ fe hr]
          exact List.mem_cons_self _ _
      · exact Or.inr (List.mem_cons_of_mem _ hsrc)

/-- C10.  The analyzed columns are exactly the keys of the first parsed
row, in that row's key order: one ColumnAnalysis per key of row 0, in
order; every FeatureEngineeringInfo has its source column among those
keys; the reported final column count is read from the first cleaned
row alone; and a key absent from row 0 (and not colliding with a name
synthesized from a row-0 key) keeps its parsed value in every row —
never analyzed, never imputed, never used for feature synthesis. -/
theorem c10_headers_from_first_row (name : String) (r0 : Row) (rest : List Row)
    (hnd : ∀ row ∈ r0 :: rest, (row.map Prod.fst).Nodup) :
    ∃ rep cleaned,
      processRows name (r0 :: rest) = Except.ok (rep, cleaned)
      ∧ rep.columnAnalyses.map (fun a => a.name) = r0.map Prod.fst
      ∧ (∀ fe ∈ rep.featureEngineering, fe.sourceColumn ∈ r0.map Prod.fst)
      ∧ rep.cleanedCols = (match cleaned with | [] => 0 | r :: _ => r.length)
      ∧ (∀ k, k ∉ r0.map Prod.fst →
          (∀ hh ∈ r0.map Prod.fst, k ≠ hh ++ "_year" ∧ k ≠ hh ++ "_month"
            ∧ k ≠ hh ++ "_day" ∧ k ≠ hh ++ "_length" ∧ k ≠ hh ++ "_word_count") →
          ∀ i, getVal (cleaned.getD i []) k = getVal ((r0 :: rest).getD i []) k) := by
  refine ⟨_, _, rfl, ?_, ?_, rfl, ?_⟩
  · show (((r0.map Prod.fst).foldl loopStep
        ⟨jsonClone (r0 :: rest), [], [], []⟩).columnAnalyses).map (fun a => a.name)
      = r0.map Prod.fst
    rw [foldl_analyses_names]
    simp
  · intro fe hfe
    rcases foldl_fe_sources _ _ fe hfe with hmem | hsrc
    · exact absurd hmem (List.not_mem_nil fe)
    · exact hsrc
  · intro k hk1 hk2 i
    have hks : ∀ hh ∈ r0.map Prod.fst, k ≠ hh ∧ k ≠ hh ++ "_year"
        ∧ k ≠ hh ++ "_month" ∧ k ≠ hh ++ "_day" ∧ k ≠ hh ++ "_length"
        ∧ k ≠ hh ++ "_word_count" := by
      intro hh hmem
      obtain ⟨s2, s3, s4, s5, s6⟩ := hk2 hh hmem
      exact ⟨fun e => hk1 (by rw [e]; exact hmem), s2, s3, s4, s5, s6⟩
    show getVal ((((r0.map Prod.fst).foldl loopStep
        ⟨jsonClone (r0 :: rest), [], [], []⟩).cleanedData).getD i []) k
      = getVal ((r0 :: rest).getD i []) k
    rw [foldl_loopStep_getVal_other _ _ _ hks i]
    exact jsonClone_getVal_getD (r0 :: rest) hnd i k

/-- C10 witness: a dataset whose second row has an extra key "b" keeps
that key's value untouched, and the analyses cover exactly the keys of
row 0. -/
theorem c10_headers_from_first_row_witness :
    ∃ rep cleaned,
      processRows "f.csv" ([("a", Value.str "x")] :: [[("a", Value.str "y"), ("b", Value.str "z")]])
        = Except.ok (rep, cleaned)
      ∧ rep.columnAnalyses.map (fun a => a.name)
        = ([("a", Value.str "x")] : Row).map Prod.fst
      ∧ (∀ fe ∈ rep.featureEngineering,
          fe.sourceColumn ∈ ([("a", Value.str "x")] : Row).map Prod.fst)
      ∧ rep.cleanedCols = (match cleaned with | [] => 0 | r :: _ => r.length)
      ∧ (∀ k, k ∉ ([("a", Value.str "x")] : Row).map Prod.fst →
          (∀ hh ∈ ([("a", Value.str "x")] : Row).map Prod.fst,
            k ≠ hh ++ "_year" ∧ k ≠ hh ++ "_month" ∧ k ≠ hh ++ "_day"
              ∧ k ≠ hh ++ "_length" ∧ k ≠ hh ++ "_word_count") →
          ∀ i, getVal (cleaned.getD i []) k
            = getVal (([("a", Value.str "x")] :: [[("a", Value.str "y"), ("b", Value.str "z")]]
                : List Row).getD i []) k) :=
  c10_headers_from_first_row "f.csv" [("a", Value.str "x")]
    [[("a", Value.str "y"), ("b", Value.str "z")]]
    (by
      intro row hrow
      rcases List.mem_cons.1 hrow with rfl | hrow2
      · decide
      · rcases List.mem_cons.1 hrow2 with rfl | hrow3
        · decide
        · exact absurd hrow3 (List.not_mem_nil row))

end AutoCleanX
